import Mathlib

/-!
Verification development for the Wyvern lazification pass
(src/passes/Lazyfication.cpp and src/passes/ProgramSlice.cpp).

The C++ pass is shallowly embedded below.  Pure queries on LLVM IR objects
(`mayThrow`, `mayReadOrWriteMemory`, `willReturn`, loop depths, ...) are kept
as explicit fields of the embedded slice data; the control flow of each
embedded function follows the corresponding C++ function line by line.
All statistics counters are `unsigned int` in the source; they are modelled
as `Nat` because no claim involves values anywhere near 2^32, so wrap-around
never matters.
-/

namespace Wyvern

/-! ## Values and call sites (Lazyfication.cpp)

A tiny universe of LLVM values, just rich enough to distinguish the cases
`WyvernLazyficationPass::lazifyCallsite` cares about: formal arguments of
the caller, instructions, integer constants, function values and the
`AllocaInst` result for the thunk record. -/

inductive WVal where
  | argV (i : Nat)
  | instV (i : Nat)
  | constI8 (n : Int)
  | funcV (name : String)
  | allocaV (id : Nat)
deriving DecidableEq, Repr

/-- Models `dyn_cast<Instruction>(CI.getArgOperand(index))` succeeding
(Lazyfication.cpp:115). -/
def isInstructionVal : WVal → Bool
  | .instV _ => true
  | _ => false

/-- Instructions that `lazifyCallsite` inserts in the caller right before the
rewritten call in memoized mode (Lazyfication.cpp:146-151).  GEP index lists
are recorded literally as they appear in the source: the function-pointer
store uses the single index `{0}` and the flag store the single index `{2}`. -/
inductive EmittedInst where
  | allocaRec (id : Nat)
  | gepInst (dst : Nat) (base : Nat) (idxs : List Int)
  | storeInst (v : WVal) (ptrReg : Nat)
deriving DecidableEq, Repr

/-- A call instruction of the module, as far as the rewriter touches it:
its callee, its argument list, and the instructions inserted before it. -/
structure CallSite where
  target : String
  args : List WVal
  preInsts : List EmittedInst
deriving DecidableEq, Repr

def defaultWVal : WVal := .constI8 0

def defaultCall : CallSite := ⟨"", [], []⟩

/-! ## The slice data (ProgramSlice.cpp constructor fields)

`ProgramSlice` stores `_instsInSlice`, `_depArgs`, `_BBsInSlice`, `_initial`
and `_CallSite`.  `canOutline` only consults boolean/numeric queries on these
objects, which are carried as fields here. -/

/-- Operand of a slice instruction: an integer literal, a reference to
another slice instruction (by id), or a reference to a caller formal
argument (by position). -/
inductive Operand where
  | lit (n : Int)
  | ref (id : Nat)
  | argRef (i : Nat)
deriving DecidableEq, Repr

/-- The instruction opcodes the embedding can evaluate.  `loadOp` stands for
any memory-touching opcode; its value is not evaluable in the pure model
(and `canOutline` rejects any slice containing it whenever its
`mayReadOrWriteMemory` flag is set, as LLVM would report for a load). -/
inductive OpKind where
  | mulOp
  | addOp
  | loadOp
deriving DecidableEq, Repr

/-- One instruction of `_instsInSlice`.  The five booleans model the LLVM
queries used by `ProgramSlice::canOutline` (ProgramSlice.cpp:514-539):
`I->mayThrow()`, `I->mayReadOrWriteMemory()`, `I->willReturn()`,
`isa<AllocaInst>(I)` and `hasAddressTaken(...)`. -/
structure SliceInst where
  id : Nat
  kind : OpKind
  lhs : Operand
  rhs : Operand
  mayThrow : Bool
  mayReadOrWriteMemory : Bool
  willReturn : Bool
  isAllocaInst : Bool
  addrTaken : Bool
deriving DecidableEq, Repr

/-- A basic block of the slice, reduced to the only query `canOutline` makes
of it: `LI.getLoopDepth(BB)`. -/
structure SBlock where
  loopDepth : Nat
deriving DecidableEq, Repr

/-- The fields of a `ProgramSlice` that `canOutline` and the outliners read.
`callSiteDepth` is `LI.getLoopDepth(_CallSite->getParent())`;
`initialIsAlloca` is `isa<AllocaInst>(_initial)` (ProgramSlice.cpp:553);
`initialDegeneratePHI` is the LCSSA condition of ProgramSlice.cpp:564-571:
`_initial` is a PHI with a single incoming value whose incoming block's
terminator is not in the slice. -/
structure Slice where
  instsInSlice : List SliceInst
  depArgs : List Nat
  BBsInSlice : List SBlock
  callSiteDepth : Nat
  initialId : Nat
  initialIsAlloca : Bool
  initialDegeneratePHI : Bool
deriving DecidableEq, Repr

/-- The per-instruction admissibility test of the first loop of
`ProgramSlice::canOutline` (ProgramSlice.cpp:514-539): the instruction may
not throw, may not read or write memory, must be guaranteed to return, and
an alloca must not have its address taken. -/
def instPure (I : SliceInst) : Bool :=
  !I.mayThrow && !I.mayReadOrWriteMemory && I.willReturn &&
    !(I.isAllocaInst && I.addrTaken)

/-- Embedding of `ProgramSlice::canOutline` (ProgramSlice.cpp:511-574).
The four conjuncts are, in source order: the instruction loop, the loop-depth
check (a slice block at depth `<=` the call site's depth refuses the
candidate), the `_initial`-is-alloca check, and the degenerate-LCSSA-PHI
check. -/
def canOutline (s : Slice) : Bool :=
  s.instsInSlice.all instPure &&
  (if 0 < s.callSiteDepth then
      s.BBsInSlice.all (fun BB => decide (s.callSiteDepth < BB.loopDepth))
    else true) &&
  !s.initialIsAlloca &&
  !s.initialDegeneratePHI

/-! ## The outlined thunk body (ProgramSlice.cpp: outline / memoizedOutline)

The claims only exercise the outliners on slices whose instructions lie in a
single basic block and contain no branch.  For such a slice
`rerouteBranches` contributes no instruction (its temporary
`_wyvern_unreachable` block acquires no predecessor and is erased,
ProgramSlice.cpp:504-505), so `outline` produces one block holding the
argument loads inserted by `insertLoadForThunkParams`, the cloned slice
instructions in program order, and the return appended by `addReturnValue`.
`memoizedOutline` additionally prepends the two blocks built by
`addMemoizationCode` and its two epilogue stores before the return. -/

inductive ThunkInst where
  | compute (I : SliceInst)
  | argGep (slot : Nat)
  | argLoad (slot : Nat) (argIdx : Nat)
  | retValue (v : Operand)
  | memoValGep
  | memoValLoad
  | memoFlagGep
  | memoFlagLoad
  | memoFlagTrunc
  | memoCondBr
  | memoRet
  | memoStoreFlag
  | memoStoreVal
deriving DecidableEq, Repr

/-- The loop body of `ProgramSlice::insertLoadForThunkParams`
(ProgramSlice.cpp:740-757): for each dependence argument, a `CreateStructGEP`
and a `CreateLoad` of slot `i`, with `i` incremented per argument. -/
def insertLoadsFrom (i : Nat) : List Nat → List ThunkInst
  | [] => []
  | a :: rest => .argGep i :: .argLoad i a :: insertLoadsFrom (i + 1) rest

/-- Embedding of `ProgramSlice::insertLoadForThunkParams`
(ProgramSlice.cpp:727-758).  Memo thunk arguments start at slot 3, due to the
memo flag and memoed value taking up two slots; non-memo arguments start at
slot 1. -/
def insertLoadForThunkParams (memo : Bool) (depArgs : List Nat) : List ThunkInst :=
  insertLoadsFrom (if memo then 3 else 1) depArgs

/-- The block produced by `ProgramSlice::outline` (ProgramSlice.cpp:765-809)
for a straight-line single-block slice: cloned instructions
(`populateBBsWithInsts`), the return of the clone of `_initial`
(`addReturnValue`), and the parameter loads at the entry's first insertion
point (`insertLoadForThunkParams` with `memo = false`). -/
def outlineBlocks (s : Slice) : List (List ThunkInst) :=
  [insertLoadForThunkParams false s.depArgs
      ++ s.instsInSlice.map ThunkInst.compute
      ++ [ThunkInst.retValue (.ref s.initialId)]]

/-- The blocks produced by `ProgramSlice::memoizedOutline`
(ProgramSlice.cpp:866-914) for a straight-line single-block slice.
`addMemoizationCode` (ProgramSlice.cpp:811-857) prepends the
`_wyvern_memo_entry` block (GEP+load of the memoed value at field 1,
GEP+load of the flag at field 2, trunc to i1, conditional branch) and the
`_wyvern_memo_ret` block (return of the memoed value), and inserts the two
epilogue stores (flag := 1, value := computed result) right before the
return of the main block. -/
def memoizedOutlineBlocks (s : Slice) : List (List ThunkInst) :=
  [[.memoValGep, .memoValLoad, .memoFlagGep, .memoFlagLoad, .memoFlagTrunc, .memoCondBr],
   [.memoRet],
   insertLoadForThunkParams true s.depArgs
      ++ s.instsInSlice.map ThunkInst.compute
      ++ [.memoStoreFlag, .memoStoreVal, ThunkInst.retValue (.ref s.initialId)]]

/-- Embedding of `getNumberOfInsts` (Lazyfication.cpp:19-27): the doubly
nested loop accumulating `++size` over the function's blocks. -/
def getNumberOfInsts (blocks : List (List ThunkInst)) : Nat :=
  blocks.foldl (fun size BB => BB.foldl (fun s _ => s + 1) size) 0

/-! ### Evaluation of a straight-line thunk body

Used to state what the generated thunk computes.  `record` is the thunk
record's field list; `argLoad` binds the loaded slot to the caller argument
it replaces, exactly as `insertLoadForThunkParams` rewrites uses. -/

def evalOperand (env argEnv : List (Nat × Int)) : Operand → Option Int
  | .lit n => some n
  | .ref i => env.lookup i
  | .argRef i => argEnv.lookup i

def applyOpKind : OpKind → Int → Int → Option Int
  | .mulOp, x, y => some (x * y)
  | .addOp, x, y => some (x + y)
  | .loadOp, _, _ => none

def evalThunkInsts (record : List Int) :
    List ThunkInst → List (Nat × Int) → List (Nat × Int) → Option Int
  | [], _, _ => none
  | .retValue v :: _, env, argEnv => evalOperand env argEnv v
  | .compute I :: rest, env, argEnv =>
    match evalOperand env argEnv I.lhs, evalOperand env argEnv I.rhs with
    | some x, some y =>
      match applyOpKind I.kind x y with
      | some z => evalThunkInsts record rest ((I.id, z) :: env) argEnv
      | none => none
    | _, _ => none
  | .argGep _ :: rest, env, argEnv => evalThunkInsts record rest env argEnv
  | .argLoad slot a :: rest, env, argEnv =>
    match record.get? slot with
    | some v => evalThunkInsts record rest env ((a, v) :: argEnv)
    | none => none
  | _ :: _, _, _ => none

/-- Evaluate a straight-line thunk body (no branches) against a record. -/
def evalThunkBlocks (blocks : List (List ThunkInst)) (record : List Int) : Option Int :=
  evalThunkInsts record blocks.flatten [] []

/-! ## The call-site rewriter (WyvernLazyficationPass) -/

/-- The five `STATISTIC` counters of Lazyfication.cpp:5-9. -/
structure Stats where
  numCallsitesLazified : Nat
  numFunctionsLazified : Nat
  largestSlice : Nat
  smallestSlice : Nat
  totalSlice : Nat
deriving DecidableEq, Repr

/-- The state `runOnModule` threads: the module's call instructions, the
`lazifiedFunctions` set of `(caller, lazyfiableArg)` pairs, and the
statistics counters. -/
structure LazyState where
  calls : List CallSite
  lazifiedPairs : List (String × Nat)
  stats : Stats
deriving DecidableEq, Repr

/-- One candidate call site handed to `lazifyCallsite`: which call it is,
which argument index, the slice built for that argument, the outcome of
`slice.verify()`, and the callee/caller names used for generated symbols. -/
structure Candidate where
  callIdx : Nat
  index : Nat
  slice : Slice
  verifyOk : Bool
  calleeName : String
  callerName : String
deriving DecidableEq, Repr

/-- Generated thunk symbol (ProgramSlice.cpp:790-792 and 890-893).  The
random nonce appended by the source only serves collision avoidance and is
elided here; the value name is folded into the caller name. -/
def thunkFunctionName (memo : Bool) (c : Candidate) : String :=
  (if memo then "_wyvern_slice_memo_" else "_wyvern_slice_") ++ c.callerName

/-- Generated callee-clone symbol (Lazyfication.cpp:80-81). -/
def cloneCalleeName (c : Candidate) : String :=
  "_wyvern_calleeclone_" ++ c.calleeName ++ "_" ++ toString c.index

/-- The instructions `lazifyCallsite` inserts before the call in memoized
mode (Lazyfication.cpp:146-151): the record alloca, a
`GetElementPtrInst::CreateInBounds` with the single index `{0}`, a store of
the thunk function through it, a `CreateInBounds` with the single index
`{2}`, and a store of the i8 constant 0 through that.  Register ids 0-2 name
the alloca and the two GEP results. -/
def memoPreCallInsts (thunkName : String) : List EmittedInst :=
  [.allocaRec 0,
   .gepInst 1 0 [0],
   .storeInst (.funcV thunkName) 1,
   .gepInst 2 0 [2],
   .storeInst (.constI8 0) 2]

/-- The statistics update of Lazyfication.cpp:166-173. -/
def updateSizeStats (st : Stats) (size : Nat) : Stats :=
  let st1 := { st with totalSlice := st.totalSlice + size }
  let st2 := if st1.largestSlice < size then { st1 with largestSlice := size } else st1
  if st2.smallestSlice > size then { st2 with smallestSlice := size } else st2

/-- Embedding of `WyvernLazyficationPass::lazifyCallsite`
(Lazyfication.cpp:111-178).  In source order: the
`dyn_cast<Instruction>` guard on the argument operand, the
`!slice.canOutline() || !slice.verify()` guard, the statistics increments,
the outlining, and the call-site rewrite.  In memoized mode the rewrite
allocates the record, stores the thunk function and the i8 zero through the
two single-index GEPs, and sets the call's argument to the alloca; in
non-memoized mode it sets the call's argument to the thunk function itself
and inserts nothing before the call. -/
def lazifyCallsite (memo : Bool) (c : Candidate) (st : LazyState) :
    Bool × LazyState :=
  let CI := st.calls.getD c.callIdx defaultCall
  if !isInstructionVal (CI.args.getD c.index defaultWVal) then (false, st)
  else if !canOutline c.slice || !c.verifyOk then (false, st)
  else
    let stats1 := { st.stats with
      numCallsitesLazified := st.stats.numCallsitesLazified + 1 }
    let isNewPair := !st.lazifiedPairs.contains (c.callerName, c.slice.initialId)
    let stats2 := if isNewPair then
        { stats1 with numFunctionsLazified := stats1.numFunctionsLazified + 1 }
      else stats1
    let pairs := if isNewPair then
        (c.callerName, c.slice.initialId) :: st.lazifiedPairs
      else st.lazifiedPairs
    let thunkBlocks := if memo then memoizedOutlineBlocks c.slice
      else outlineBlocks c.slice
    let tname := thunkFunctionName memo c
    let CI2 := if memo then
        { CI with target := cloneCalleeName c,
                  args := CI.args.set c.index (.allocaV 0),
                  preInsts := CI.preInsts ++ memoPreCallInsts tname }
      else
        { CI with target := cloneCalleeName c,
                  args := CI.args.set c.index (.funcV tname) }
    let size := getNumberOfInsts thunkBlocks
    (true,
     { calls := st.calls.set c.callIdx CI2,
       lazifiedPairs := pairs,
       stats := updateSizeStats stats2 size })

/-- `std::numeric_limits<unsigned int>::max()`. -/
def UINT32_MAX : Nat := 4294967295

/-- Embedding of `WyvernLazyficationPass::runOnModule`
(Lazyfication.cpp:180-199).  Each candidate is paired with the outcome of
the `FLA.getLazyfiablePaths().count(...) > 0` test.  Note that the loop body
is `changed = lazifyCallsite(...)` — a plain assignment, so each processed
candidate overwrites `changed` rather than accumulating into it. -/
def runOnModule (memo : Bool) (cands : List (Candidate × Bool))
    (st : LazyState) : Bool × LazyState :=
  let st0 := { st with stats := { st.stats with smallestSlice := UINT32_MAX } }
  let res := cands.foldl
    (fun acc pc => if pc.2 then lazifyCallsite memo pc.1 acc.2 else acc)
    (false, st0)
  let stF := if res.2.stats.smallestSlice = UINT32_MAX then
      { res.2 with stats := { res.2.stats with smallestSlice := 0 } }
    else res.2
  (res.1, stF)

/-! ## Control-flow graphs, dominance, and gate computation
(ProgramSlice.cpp:35-96)

Blocks are numbered `0, ..., blocks.length - 1`; each block is reduced to
its terminator.  Dominance and post-dominance are computed from first
principles on the graph (`d` dominates `b` iff every path from the entry to
`b` passes through `d`; dually for post-dominance towards the single exit
block), so that the relations fed to the embedded `computeGates` are the
true relations of a concrete CFG rather than hand-picked tables. -/

/-- Terminator kinds distinguished by `getGate` (ProgramSlice.cpp:49-63). -/
inductive TermKind where
  | condBr (t f : Nat)
  | uncondBr (t : Nat)
  | switchInst (dflt : Nat) (cases : List Nat)
  | retInst
deriving DecidableEq, Repr

def TermKind.successors : TermKind → List Nat
  | .condBr t f => [t, f]
  | .uncondBr t => [t]
  | .switchInst d cs => d :: cs
  | .retInst => []

/-- Result of `getGate`.  The source declares `const Value *condition;`
without initializing it: a conditional branch or a switch assigns the
terminator to it, an unconditional branch fires the
`assert(BI->isConditional())`, and any other terminator kind falls through
and returns the uninitialized variable. -/
inductive GateResult where
  | gate (t : TermKind)
  | assertViolation
  | indeterminateValue
deriving DecidableEq, Repr

/-- Embedding of `getGate` (ProgramSlice.cpp:49-63). -/
def getGate : TermKind → GateResult
  | .condBr t f => .gate (.condBr t f)
  | .uncondBr _ => .assertViolation
  | .switchInst d cs => .gate (.switchInst d cs)
  | .retInst => .indeterminateValue

def isCondBrOrSwitch : TermKind → Bool
  | .condBr _ _ => true
  | .switchInst _ _ => true
  | _ => false

/-- A function body for the gate computation: one terminator per block, an
entry block and a unique exit block (the sink every terminating path
reaches, standing for LLVM's post-dominator-tree root). -/
structure CFG where
  blocks : List TermKind
  entry : Nat
  exitBlock : Nat
deriving Repr

def CFG.numBlocks (g : CFG) : Nat := g.blocks.length

def CFG.succs (g : CFG) (b : Nat) : List Nat :=
  match g.blocks.get? b with
  | some t => t.successors
  | none => []

def CFG.preds (g : CFG) (b : Nat) : List Nat :=
  (List.range g.numBlocks).filter (fun p => (g.succs p).contains b)

/-- One saturation pass per unit of fuel: add all successors of already
reached blocks, never stepping onto `avoid`. -/
def expandReach (g : CFG) (avoid : Nat) : Nat → List Nat → List Nat
  | 0, acc => acc
  | fuel + 1, acc =>
    let next := ((acc.map g.succs).flatten).filter
      (fun x => !acc.contains x && x != avoid)
    expandReach g avoid fuel (acc ++ next)

/-- Blocks reachable from `src` along paths that never touch `avoid`
(including `src` itself, unless `src = avoid`). -/
def reachAvoiding (g : CFG) (src avoid : Nat) : List Nat :=
  if src = avoid then [] else expandReach g avoid g.numBlocks [src]

/-- `d` dominates `b`: every path from the entry to `b` passes through `d`
(for `b` reachable from the entry).  Models `DT.dominates(d, b)`. -/
def dominates (g : CFG) (d b : Nat) : Bool :=
  b == d || !(reachAvoiding g g.entry d).contains b

/-- `d` post-dominates `b`: every path from `b` to the exit passes through
`d`.  Models `PDT.dominates(d, b)`. -/
def postDominates (g : CFG) (d b : Nat) : Bool :=
  b == d || !(reachAvoiding g b d).contains g.exitBlock

def strictDominators (g : CFG) (b : Nat) : List Nat :=
  (List.range g.numBlocks).filter (fun d => d != b && dominates g d b)

/-- The immediate dominator: the strict dominator of `b` that every other
strict dominator of `b` dominates.  Models `DomTreeNode::getIDom`. -/
def idom (g : CFG) (b : Nat) : Option Nat :=
  (strictDominators g b).find?
    (fun d => (strictDominators g b).all (fun e => e == d || dominates g e d))

/-- The loop of `getController` (ProgramSlice.cpp:35-47): walk the dominator
chain upward from `BB` itself and return the first node that `BB` does not
post-dominate; `fuel` bounds the walk (the chain has at most `numBlocks`
nodes). -/
def getControllerAux (g : CFG) (P : Nat) : Nat → Nat → Option Nat
  | 0, _ => none
  | fuel + 1, cur =>
    if !(postDominates g P cur) then some cur
    else
      match idom g cur with
      | some nxt => getControllerAux g P fuel nxt
      | none => none

/-- Embedding of `getController` (ProgramSlice.cpp:35-47). -/
def getController (g : CFG) (P : Nat) : Option Nat :=
  getControllerAux g P (g.numBlocks + 1) P

/-- The dominator-tree chain of `P`: `P`, its immediate dominator, and so
on up to the root. -/
def domChainAux (g : CFG) : Nat → Nat → List Nat
  | 0, _ => []
  | fuel + 1, cur =>
    cur :: (match idom g cur with
            | some nxt => domChainAux g fuel nxt
            | none => [])

def domChain (g : CFG) (P : Nat) : List Nat :=
  domChainAux g (g.numBlocks + 1) P

/-- Per-predecessor body of the gate loop of `computeGates`
(ProgramSlice.cpp:76-91): in the `DOM` case push the predecessor's
terminator, otherwise push the remote controller's terminator when one
exists.  Gates are identified by the index of the block owning the
terminator (the source pushes `getGate(block)`, the terminator value
itself). -/
def gateStep (g : CFG) (b : Nat) (acc : List Nat) (P : Nat) : List Nat :=
  if dominates g P b && !(postDominates g b P) then acc ++ [P]
  else
    match getController g P with
    | some c => acc ++ [c]
    | none => acc

/-- Embedding of `computeGates` (ProgramSlice.cpp:65-96): every block gets
an entry in the map; only blocks with more than one predecessor get a
non-empty gate list, built by folding `gateStep` over their predecessors. -/
def computeGates (g : CFG) : List (List Nat) :=
  (List.range g.numBlocks).map (fun b =>
    if 1 < (g.preds b).length then (g.preds b).foldl (gateStep g b) [] else [])

/-- Modelled from the claim's words (C8): the per-predecessor gate when the
`DOM` case fails is "the terminator of the first node on P's dominator
chain that **B** does not post-dominate". -/
def claimGateForPred (g : CFG) (b P : Nat) : Option Nat :=
  if dominates g P b && !(postDominates g b P) then some P
  else (domChain g P).find? (fun d => !(postDominates g b d))

/-- The gate map the claim's sentence describes, for comparison with the
embedded `computeGates`. -/
def computeGatesClaim (g : CFG) : List (List Nat) :=
  (List.range g.numBlocks).map (fun b =>
    if 1 < (g.preds b).length then (g.preds b).filterMap (claimGateForPred g b)
    else [])

/-- The amended per-predecessor gate: the first node on P's dominator chain
that **P itself** does not post-dominate (which is what `getController`
computes). -/
def amendedGateForPred (g : CFG) (b P : Nat) : Option Nat :=
  if dominates g P b && !(postDominates g b P) then some P
  else (domChain g P).find? (fun d => !(postDominates g P d))

def computeGatesAmended (g : CFG) : List (List Nat) :=
  (List.range g.numBlocks).map (fun b =>
    if 1 < (g.preds b).length then (g.preds b).filterMap (amendedGateForPred g b)
    else [])

/-- The if-then-else diamond: block 0 branches to 1 and 2, which both jump
to the merge block 3. -/
def diamondCFG : CFG :=
  ⟨[.condBr 1 2, .uncondBr 3, .uncondBr 3, .retInst], 0, 3⟩

/-! ## Semantics of the memoized thunk (ProgramSlice::addMemoizationCode)

`memoizedOutline` produces a function whose entry block loads the memoed
value (field 1) and the flag (field 2) of the record, branches to
`_wyvern_memo_ret` (returning the memoed value) when the flag is set, and
otherwise runs the slice computation, stores 1 into the flag and the
computed value into field 1 right before returning it
(ProgramSlice.cpp:811-857).  The slice computation is pure — `canOutline`
admitted it — so it is modelled as a function of the captured-argument
fields of the record, which no invocation modifies. -/

/-- The memo-relevant state of a thunk record: the memoed value (field 1),
the evaluated flag (field 2), and the captured-argument fields (3...). -/
structure MemoRecord where
  cached : Int
  flag : Bool
  capturedArgs : List Int
deriving DecidableEq, Repr

/-- What one call of the memoized thunk returns, the record it leaves
behind, and whether the non-prologue part of the body (the slice
computation below `_wyvern_memo_entry`) was executed. -/
structure MemoOutcome where
  ret : Int
  state : MemoRecord
  executed : Bool
deriving DecidableEq, Repr

/-- One invocation of the function built by
`memoizedOutline`/`addMemoizationCode`: the prologue branches on the flag;
the fast path returns the memoed value and leaves the record untouched; the
slow path computes the slice's value from the captured arguments, stores
flag := 1 and the value into field 1, and returns it. -/
def invokeMemoizedThunk (f : List Int → Int) (r : MemoRecord) : MemoOutcome :=
  if r.flag then ⟨r.cached, r, false⟩
  else ⟨f r.capturedArgs, ⟨f r.capturedArgs, true, r.capturedArgs⟩, true⟩

/-- The record after `n` invocations of the thunk. -/
def recordAfter (f : List Int → Int) (r : MemoRecord) : Nat → MemoRecord
  | 0 => r
  | n + 1 => (invokeMemoizedThunk f (recordAfter f r n)).state

/-- The value returned by the `k`-th invocation (1-indexed). -/
def invocationResult (f : List Int → Int) (r : MemoRecord) (k : Nat) : Int :=
  (invokeMemoizedThunk f (recordAfter f r (k - 1))).ret

/-- Whether the `k`-th invocation executed the non-prologue computation. -/
def invocationExecuted (f : List Int → Int) (r : MemoRecord) (k : Nat) : Bool :=
  (invokeMemoizedThunk f (recordAfter f r (k - 1))).executed

/-- How many of the first `n` invocations executed the non-prologue
computation. -/
def bodyExecCount (f : List Int → Int) (r : MemoRecord) : Nat → Nat
  | 0 => 0
  | n + 1 => bodyExecCount f r n + (if invocationExecuted f r (n + 1) then 1 else 0)

/-! ## The thunk record type layout
(ProgramSlice::memoizedOutline, ProgramSlice::outline) -/

/-- Field types of the `_wyvern_thunk_type` struct. -/
inductive WType where
  | fptrTy
  | resultTy
  | flagTy
  | argT (n : Nat)
deriving DecidableEq, Repr

/-- The `thunkTypes` vector built by `ProgramSlice::memoizedOutline`
(ProgramSlice.cpp:874-882): the thunk-function pointer, the thunk's return
type, an `i1`, then one entry per dependence argument in order. -/
def memoizedOutlineThunkTypes (argTys : List WType) : List WType :=
  [.fptrTy, .resultTy, .flagTy] ++ argTys

/-- The `thunkTypes` vector built by `ProgramSlice::outline`
(ProgramSlice.cpp:773-779): the thunk-function pointer, then one entry per
dependence argument in order. -/
def outlineThunkTypes (argTys : List WType) : List WType :=
  [.fptrTy] ++ argTys

/-- Slot index of an `argLoad`, for reading off which record fields the
thunk body's parameter loads touch. -/
def loadSlotOf : ThunkInst → Option Nat
  | .argLoad slot _ => some slot
  | _ => none

/-- The record slots read by `insertLoadForThunkParams`, in order. -/
def thunkParamLoadSlots (memo : Bool) (depArgs : List Nat) : List Nat :=
  (insertLoadForThunkParams memo depArgs).filterMap loadSlotOf

/-! ## Concrete scenario inputs -/

/-- A pure, non-throwing, returning arithmetic instruction, as LLVM's
queries report for `mul`/`add` on integers. -/
def mkPureInst (id : Nat) (k : OpKind) (l r : Operand) : SliceInst :=
  ⟨id, k, l, r, false, false, true, false, false⟩

/-- The constant-folding scenario's slice: the caller computes
`x = a * b + 1` from the constants `a` and `b` and passes `x` to the
callee; the slice is the `mul` and the `add`, with no dependence
arguments. -/
def constFoldSlice (a b : Int) : Slice :=
  ⟨[mkPureInst 1 .mulOp (.lit a) (.lit b), mkPureInst 2 .addOp (.ref 1) (.lit 1)],
   [], [⟨0⟩], 0, 2, false, false⟩

def constFoldCandidate (a b : Int) : Candidate :=
  ⟨0, 0, constFoldSlice a b, true, "callee", "caller"⟩

/-- A module with a single call `callee(x)` whose argument is the
instruction computing `x`, and zero-initialized statistics. -/
def singleCallState : LazyState :=
  ⟨[⟨"callee", [.instV 2], []⟩], [], ⟨0, 0, 0, 0, 0⟩⟩

/-- A slice that captures one caller argument (`depArgs = [0]`): the caller
computes `x = a * 3` from its formal parameter `a`. -/
def capturedArgSlice : Slice :=
  ⟨[mkPureInst 1 .mulOp (.argRef 0) (.lit 3)], [0], [⟨0⟩], 0, 1, false, false⟩

def capturedArgCandidate : Candidate :=
  ⟨0, 0, capturedArgSlice, true, "callee", "caller"⟩

/-- A module with two candidate calls: the first is lazifiable, the second
passes a constant (so `dyn_cast<Instruction>` fails on it). -/
def twoCallState : LazyState :=
  ⟨[⟨"callee", [.instV 2], []⟩, ⟨"callee", [.constI8 7], []⟩], [], ⟨0, 0, 0, 0, 0⟩⟩

/-- The failing second candidate of `twoCallState`. -/
def failingCandidate : Candidate :=
  ⟨1, 0, capturedArgSlice, true, "callee", "caller2"⟩

/-- A slice whose only instruction is a `load` — LLVM reports
`mayReadOrWriteMemory()` for it. -/
def loadSlice : Slice :=
  ⟨[⟨1, .loadOp, .lit 0, .lit 0, false, true, true, false, false⟩],
   [], [⟨0⟩], 0, 1, false, false⟩

/-- A slice whose call site sits at loop depth 1 and that contains a block
at loop depth 1 (an induction variable's block), violating the
strictly-deeper requirement. -/
def loopDepthSlice : Slice :=
  ⟨[mkPureInst 1 .mulOp (.lit 2) (.lit 3)], [], [⟨1⟩], 1, 1, false, false⟩

/-! ## Helper lemmas -/

theorem invokeMemoizedThunk_flag (f : List Int → Int) (r : MemoRecord) :
    (invokeMemoizedThunk f r).state.flag = true := by
  unfold invokeMemoizedThunk
  cases hr : r.flag <;> simp [hr]

theorem invokeMemoizedThunk_of_flag (f : List Int → Int) (r : MemoRecord)
    (h : r.flag = true) : invokeMemoizedThunk f r = ⟨r.cached, r, false⟩ := by
  unfold invokeMemoizedThunk
  simp [h]

theorem invokeMemoizedThunk_cached (f : List Int → Int) (r : MemoRecord) :
    (invokeMemoizedThunk f r).state.cached = (invokeMemoizedThunk f r).ret := by
  unfold invokeMemoizedThunk
  cases hr : r.flag <;> simp [hr]

theorem recordAfter_stable (f : List Int → Int) (r : MemoRecord) :
    ∀ n, recordAfter f r (n + 1) = recordAfter f r 1 := by
  intro n
  induction n with
  | zero => rfl
  | succ m ih =>
    show (invokeMemoizedThunk f (recordAfter f r (m + 1))).state = _
    rw [ih]
    show (invokeMemoizedThunk f (invokeMemoizedThunk f r).state).state = _
    rw [invokeMemoizedThunk_of_flag f _ (invokeMemoizedThunk_flag f r)]
    rfl

theorem invoke_after_first (f : List Int → Int) (r : MemoRecord) (k : Nat)
    (h : 2 ≤ k) :
    invokeMemoizedThunk f (recordAfter f r (k - 1)) =
      ⟨(invokeMemoizedThunk f r).ret, (invokeMemoizedThunk f r).state, false⟩ := by
  obtain ⟨n, hn⟩ : ∃ n, k - 1 = n + 1 := ⟨k - 2, by omega⟩
  rw [hn, recordAfter_stable]
  show invokeMemoizedThunk f (invokeMemoizedThunk f r).state = _
  rw [invokeMemoizedThunk_of_flag f _ (invokeMemoizedThunk_flag f r)]
  rw [invokeMemoizedThunk_cached]

theorem invocationExecuted_after_first (f : List Int → Int) (r : MemoRecord)
    (k : Nat) (h : 2 ≤ k) : invocationExecuted f r k = false := by
  unfold invocationExecuted
  rw [invoke_after_first f r k h]

theorem bodyExecCount_le_one (f : List Int → Int) (r : MemoRecord) :
    ∀ n, bodyExecCount f r n ≤ 1
  | 0 => by simp [bodyExecCount]
  | 1 => by
    unfold bodyExecCount
    split <;> simp [bodyExecCount]
  | n + 2 => by
    have ih := bodyExecCount_le_one f r (n + 1)
    unfold bodyExecCount
    rw [invocationExecuted_after_first f r (n + 2) (by omega)]
    simpa using ih

theorem getControllerAux_eq_find (g : CFG) (P : Nat) (fuel : Nat) :
    ∀ cur, getControllerAux g P fuel cur =
      (domChainAux g fuel cur).find? (fun d => !(postDominates g P d)) := by
  induction fuel with
  | zero => intro cur; rfl
  | succ n ih =>
    intro cur
    cases hpd : postDominates g P cur with
    | false =>
      rw [getControllerAux, domChainAux, List.find?_cons_of_pos]
      · simp [hpd]
      · simp [hpd]
    | true =>
      rw [getControllerAux, domChainAux, List.find?_cons_of_neg]
      · cases hid : idom g cur with
        | some nxt => simp [hpd, hid, ih nxt]
        | none => simp [hpd, hid]
      · simp [hpd]

theorem getController_eq_find (g : CFG) (P : Nat) :
    getController g P = (domChain g P).find? (fun d => !(postDominates g P d)) :=
  getControllerAux_eq_find g P (g.numBlocks + 1) P

theorem gateStep_eq_amended (g : CFG) (b : Nat) (acc : List Nat) (P : Nat) :
    gateStep g b acc P = acc ++ (amendedGateForPred g b P).toList := by
  unfold gateStep amendedGateForPred
  rw [← getController_eq_find]
  cases hdom : dominates g P b && !(postDominates g b P) with
  | true => simp [hdom]
  | false =>
    simp only [hdom, Bool.false_eq_true, if_false]
    cases getController g P <;> simp

theorem foldl_gateStep_eq (g : CFG) (b : Nat) (l : List Nat) :
    ∀ acc, l.foldl (gateStep g b) acc =
      acc ++ l.filterMap (amendedGateForPred g b) := by
  induction l with
  | nil => intro acc; simp
  | cons P rest ih =>
    intro acc
    rw [List.foldl_cons, gateStep_eq_amended, ih, List.filterMap_cons]
    cases amendedGateForPred g b P <;> simp

theorem insertLoadsFrom_slots (l : List Nat) :
    ∀ i, (insertLoadsFrom i l).filterMap loadSlotOf =
      (List.range l.length).map (fun k => i + k) := by
  induction l with
  | nil => intro i; simp [insertLoadsFrom]
  | cons a rest ih =>
    intro i
    have hfun : ((fun k => i + k) ∘ Nat.succ) = (fun k => (i + 1) + k) := by
      funext k
      simp [Function.comp]
      omega
    simp only [insertLoadsFrom, List.filterMap_cons, loadSlotOf, ih (i + 1),
      List.length_cons, List.range_succ_eq_map, List.map_cons, List.map_map, hfun,
      Nat.add_zero]

/-! ## Claim theorems -/

/-- C1: the claim says that for every successfully lazified candidate, in
both modes, the rewritten call's lazified operand is the pointer to the
Thunk Record allocated at the call site, never the thunk function itself.
The code violates this in non-memoized mode: `lazifyCallsite` succeeds, but
it sets the lazified operand to the thunk function value and inserts no
record allocation before the call (Lazyfication.cpp:155-164); only the
memoized branch passes the record alloca. -/
theorem lazifyCallsite_nonmemo_passes_thunk_function :
    (lazifyCallsite false (constFoldCandidate 2 3) singleCallState).1 = true ∧
    ((lazifyCallsite false (constFoldCandidate 2 3) singleCallState).2.calls.getD 0
        defaultCall).target = "_wyvern_calleeclone_callee_0" ∧
    ((lazifyCallsite false (constFoldCandidate 2 3) singleCallState).2.calls.getD 0
        defaultCall).args.getD 0 defaultWVal = WVal.funcV "_wyvern_slice_caller" ∧
    ((lazifyCallsite false (constFoldCandidate 2 3) singleCallState).2.calls.getD 0
        defaultCall).preInsts = [] ∧
    ((lazifyCallsite true (constFoldCandidate 2 3) singleCallState).2.calls.getD 0
        defaultCall).args.getD 0 defaultWVal = WVal.allocaV 0 := by
  refine ⟨rfl, rfl, rfl, rfl, rfl⟩

/-- C2: the claim says that before the rewritten call, the Thunk Record has
its function-pointer slot, its memo flag slot (field 2) and every
captured-argument slot written.  The code emits exactly two stores: the
thunk function through a single-index GEP `{0}` and an i8 zero through a
single-index GEP `{2}` (pointer arithmetic two whole records past the
alloca, not field 2, which would be the indices `{0, 2}`), and it never
stores any captured argument, here with `depArgs = [0]` nonempty
(Lazyfication.cpp:146-151). -/
theorem lazifyCallsite_memo_stores_omit_captured_args :
    capturedArgSlice.depArgs = [0] ∧
    (lazifyCallsite true capturedArgCandidate singleCallState).1 = true ∧
    ((lazifyCallsite true capturedArgCandidate singleCallState).2.calls.getD 0
        defaultCall).preInsts =
      [.allocaRec 0, .gepInst 1 0 [0],
       .storeInst (.funcV "_wyvern_slice_memo_caller") 1,
       .gepInst 2 0 [2], .storeInst (.constI8 0) 2] ∧
    (((lazifyCallsite true capturedArgCandidate singleCallState).2.calls.getD 0
        defaultCall).preInsts.all (fun e =>
          match e with
          | .storeInst (.argV _) _ => false
          | .gepInst _ _ idxs => decide (idxs = [0] ∨ idxs = [2])
          | _ => true)) = true := by
  refine ⟨rfl, rfl, rfl, by decide⟩

/-- C3: in memoized mode, for any thunk record state and any `k ≥ 1`, the
`k`-th invocation of the thunk body returns the same value as the first,
the non-prologue computation executes at most once across the record's
lifetime, and every invocation after the first takes the prologue fast
path (does not execute the body's computation). -/
theorem memoized_thunk_idempotent (f : List Int → Int) (r : MemoRecord)
    (k : Nat) (hk : 1 ≤ k) :
    invocationResult f r k = invocationResult f r 1 ∧
    (∀ n, bodyExecCount f r n ≤ 1) ∧
    (2 ≤ k → invocationExecuted f r k = false) := by
  refine ⟨?_, bodyExecCount_le_one f r, fun h2 => invocationExecuted_after_first f r k h2⟩
  rcases Nat.lt_or_ge k 2 with hlt | hge
  · have : k = 1 := by omega
    rw [this]
  · unfold invocationResult
    rw [invoke_after_first f r k hge]
    rfl

/-- Witness for C3 at a concrete thunk: slice value 42, record initially
unevaluated, third invocation. -/
theorem memoized_thunk_idempotent_witness :
    1 ≤ 3 ∧
    (invocationResult (fun _ => 42) ⟨0, false, []⟩ 3 =
        invocationResult (fun _ => 42) ⟨0, false, []⟩ 1 ∧
      (∀ n, bodyExecCount (fun _ => 42) ⟨0, false, []⟩ n ≤ 1) ∧
      (2 ≤ 3 → invocationExecuted (fun _ => 42) ⟨0, false, []⟩ 3 = false)) :=
  ⟨by decide, memoized_thunk_idempotent (fun _ => 42) ⟨0, false, []⟩ 3 (by decide)⟩

/-- C4: the claim says that whenever the pass returns `false`, the module
is unchanged.  The loop body of `runOnModule` is a plain assignment
`changed = lazifyCallsite(...)` (Lazyfication.cpp:190), so with two
candidates — the first lazifiable, the second not — the pass returns
`false` even though the first candidate rewrote its call site and bumped
the statistics. -/
theorem runOnModule_returns_false_after_mutation :
    (runOnModule false [(constFoldCandidate 2 3, true), (failingCandidate, true)]
        twoCallState).1 = false ∧
    (runOnModule false [(constFoldCandidate 2 3, true), (failingCandidate, true)]
        twoCallState).2.calls ≠ twoCallState.calls ∧
    (runOnModule false [(constFoldCandidate 2 3, true), (failingCandidate, true)]
        twoCallState).2.stats.numCallsitesLazified = 1 := by
  refine ⟨rfl, by decide, rfl⟩

/-- C5: if any instruction of the slice may throw, may read or write
memory, or may not return, `canOutline` rejects the candidate, and
`lazifyCallsite` then returns `false` leaving the module state (calls,
lazified-pairs set and statistics counters) exactly as it was. -/
theorem canOutline_rejects_impure_and_leaves_state (s : Slice)
    (h : ∃ I ∈ s.instsInSlice,
      I.mayThrow = true ∨ I.mayReadOrWriteMemory = true ∨ I.willReturn = false) :
    canOutline s = false ∧
    ∀ (memo : Bool) (c : Candidate) (st : LazyState),
      c.slice = s → lazifyCallsite memo c st = (false, st) := by
  obtain ⟨I, hI, hflag⟩ := h
  have hp : instPure I = false := by
    unfold instPure
    rcases hflag with h1 | h1 | h1 <;> simp [h1]
  have hall : s.instsInSlice.all instPure = false := by
    refine Bool.eq_false_iff.mpr fun hc => ?_
    have := List.all_eq_true.mp hc I hI
    rw [hp] at this
    exact Bool.false_ne_true this
  have hfalse : canOutline s = false := by
    unfold canOutline
    rw [hall]
    simp
  refine ⟨hfalse, fun memo c st hcs => ?_⟩
  unfold lazifyCallsite
  rw [hcs, hfalse]
  simp

/-- Witness for C5: a slice containing a `load` (scenario 4 of the spec) is
rejected and `lazifyCallsite` leaves the state unchanged. -/
theorem canOutline_rejects_impure_witness :
    (∃ I ∈ loadSlice.instsInSlice,
        I.mayThrow = true ∨ I.mayReadOrWriteMemory = true ∨ I.willReturn = false) ∧
    (canOutline loadSlice = false ∧
      ∀ (memo : Bool) (c : Candidate) (st : LazyState),
        c.slice = loadSlice → lazifyCallsite memo c st = (false, st)) :=
  ⟨by decide, canOutline_rejects_impure_and_leaves_state loadSlice (by decide)⟩

/-- C6: when the call site's block sits at loop depth `d > 0`, `canOutline`
accepts the candidate only if every slice block's loop depth is strictly
greater than `d`, and refuses it whenever some slice block is at depth
`<= d` (ProgramSlice.cpp:542-551). -/
theorem canOutline_loop_depth_constraint (s : Slice) :
    (canOutline s = true → 0 < s.callSiteDepth →
      ∀ BB ∈ s.BBsInSlice, s.callSiteDepth < BB.loopDepth) ∧
    (0 < s.callSiteDepth →
      (∃ BB ∈ s.BBsInSlice, BB.loopDepth ≤ s.callSiteDepth) →
      canOutline s = false) := by
  constructor
  · intro hco hd BB hBB
    unfold canOutline at hco
    rw [if_pos hd] at hco
    simp only [Bool.and_eq_true, List.all_eq_true, decide_eq_true_eq] at hco
    exact hco.1.1.2 BB hBB
  · rintro hd ⟨BB, hBB, hle⟩
    have hblocks : s.BBsInSlice.all
        (fun BB => decide (s.callSiteDepth < BB.loopDepth)) = false := by
      refine Bool.eq_false_iff.mpr fun hc => ?_
      have := List.all_eq_true.mp hc BB hBB
      simp only [decide_eq_true_eq] at this
      omega
    unfold canOutline
    rw [if_pos hd, hblocks]
    simp

/-- Witness for C6: call site at depth 1, slice block at depth 1 — the
candidate is refused. -/
theorem canOutline_loop_depth_witness :
    0 < loopDepthSlice.callSiteDepth ∧ canOutline loopDepthSlice = false :=
  ⟨by decide, (canOutline_loop_depth_constraint loopDepthSlice).2 (by decide)
      ⟨⟨1⟩, by decide, by decide⟩⟩

/-- C7: the thunk record's normative field order.  In memoized mode field 0
is the thunk-body function pointer, field 1 the cached result, field 2 the
evaluated flag, and the captured-argument slots start at field 3, one per
element of `depArgs` in order; in non-memoized mode the memo fields are
omitted and the captured-argument slots start at field 1; and
`insertLoadForThunkParams` loads the captured parameters from exactly those
slot indices. -/
theorem thunk_record_layout_and_load_indices
    (argTys : List WType) (depArgs : List Nat) (j : Nat) :
    (memoizedOutlineThunkTypes argTys).get? 0 = some .fptrTy ∧
    (memoizedOutlineThunkTypes argTys).get? 1 = some .resultTy ∧
    (memoizedOutlineThunkTypes argTys).get? 2 = some .flagTy ∧
    (memoizedOutlineThunkTypes argTys).get? (j + 3) = argTys.get? j ∧
    (outlineThunkTypes argTys).get? 0 = some .fptrTy ∧
    (outlineThunkTypes argTys).get? (j + 1) = argTys.get? j ∧
    thunkParamLoadSlots true depArgs =
      (List.range depArgs.length).map (fun k => 3 + k) ∧
    thunkParamLoadSlots false depArgs =
      (List.range depArgs.length).map (fun k => 1 + k) :=
  ⟨rfl, rfl, rfl, rfl, rfl, rfl,
   insertLoadsFrom_slots depArgs 3, insertLoadsFrom_slots depArgs 1⟩

/-- C8 counterexample: on the if-then-else diamond, `computeGates` gives
the merge block the gate list `[0, 0]` (the branch of block 0, once per
predecessor), because `getController` walks each predecessor's dominator
chain testing post-domination by the predecessor itself
(ProgramSlice.cpp:40).  The claim's description — the first node on the
chain that the merge block `B` does not post-dominate — yields the empty
list there, since the merge block post-dominates the whole diamond. -/
theorem computeGates_counterexample_diamond :
    computeGates diamondCFG = [[], [], [], [0, 0]] ∧
    computeGatesClaim diamondCFG = [[], [], [], []] ∧
    computeGates diamondCFG ≠ computeGatesClaim diamondCFG := by
  refine ⟨by decide, by decide, by decide⟩

/-- C8 (amended): `computeGates` maps every block with at most one
predecessor to an empty gate list, and for a block `B` with more than one
predecessor and each predecessor `P`: if `P` dominates `B` and `B` does not
post-dominate `P`, `P`'s terminator is added; otherwise the terminator of
the first node on `P`'s dominator chain that `P` itself does not
post-dominate is added (nothing if no such node exists). -/
theorem computeGates_matches_amended (g : CFG) :
    computeGates g = computeGatesAmended g := by
  unfold computeGates computeGatesAmended
  refine congrArg (List.map · (List.range g.numBlocks)) ?_
  funext b
  by_cases h : 1 < (g.preds b).length
  · simp [h, foldl_gateStep_eq]
  · simp [h]

/-- C9: with memoization off, the constant-folding scenario (`x = a*b + 1`
with constant `a`, `b`, passed to the callee) produces a thunk body of
exactly 3 instructions that returns `a*b + 1`, and after the run the
statistics report `smallestSlice = largestSlice = 3`. -/
theorem constant_folding_scenario (a b : Int) :
    getNumberOfInsts (outlineBlocks (constFoldSlice a b)) = 3 ∧
    evalThunkBlocks (outlineBlocks (constFoldSlice a b)) [0] = some (a * b + 1) ∧
    (runOnModule false [(constFoldCandidate a b, true)]
        singleCallState).2.stats.smallestSlice = 3 ∧
    (runOnModule false [(constFoldCandidate a b, true)]
        singleCallState).2.stats.largestSlice = 3 :=
  ⟨rfl, rfl, rfl, rfl⟩

/-- C10: `getGate` returns the block's terminator exactly when that
terminator is a conditional branch or a switch; an unconditional branch
violates its assertion, and a return makes it yield the uninitialized
`condition` variable, so callers must establish the precondition. -/
theorem getGate_defined_only_for_cond_or_switch :
    (∀ t f, getGate (.condBr t f) = .gate (.condBr t f)) ∧
    (∀ d cs, getGate (.switchInst d cs) = .gate (.switchInst d cs)) ∧
    (∀ t, getGate (.uncondBr t) = .assertViolation) ∧
    getGate .retInst = .indeterminateValue ∧
    (∀ k, (∃ v, getGate k = .gate v) ↔ isCondBrOrSwitch k = true) := by
  refine ⟨fun t f => rfl, fun d cs => rfl, fun t => rfl, rfl, fun k => ?_⟩
  cases k <;> simp [getGate, isCondBrOrSwitch]

end Wyvern
